import Mathlib

/-!
Verification of the slapo repository against its natural-language
specification.

The only core source file present is `src/slapo/model_dialect/registry.py`
(the dialect registry); it is embedded faithfully below, including its
behaviour on duplicate registrations.  The schedule-transformation core
(pattern matcher, fusion compiler, sharding primitives, pipeline
partitioner) is not part of the provided sources — only its tests and
example callers are — so those components are modelled from the
specification text, as marked in their doc comments.
-/

namespace Slapo


/-! ### Association-list dictionaries (Python `dict` with string keys)

Python dictionaries preserve insertion order; assignment to an existing key
replaces the value in place.  We model them as association lists. -/

/-- Lookup in an insertion-ordered dictionary. -/
def dlookup {α : Type} (l : List (String × α)) (k : String) : Option α :=
  match l with
  | [] => none
  | (k', v) :: rest => if k' = k then some v else dlookup rest k

/-- Assignment `d[k] = v` on an insertion-ordered dictionary: replaces the
value in place when the key exists, appends otherwise. -/
def dinsert {α : Type} (l : List (String × α)) (k : String) (v : α) :
    List (String × α) :=
  match l with
  | [] => [(k, v)]
  | (k', v') :: rest =>
      if k' = k then (k, v) :: rest else (k', v') :: dinsert rest k v

/-- The key sequence of a dictionary (`d.keys()`). -/
def dkeys {α : Type} (l : List (String × α)) : List String :=
  l.map Prod.fst

/-! ### The dialect registry (`src/slapo/model_dialect/registry.py`)

`DIALECTS = {"pipeline": {}, "log_parser": {}}` is a module-level dict of
dicts.  `register_model_dialect(target, cls_type)` validates `cls_type` and
returns a decorator; the decorator checks `"target" in DIALECTS[cls_type]`
— note: the *literal string* `"target"`, exactly as written in the source —
raises if present, and otherwise stores the class and returns it unchanged.
Errors are modelled as an `Except` result paired with the (unchanged)
registry state, mirroring an exception propagating past the global
`DIALECTS`. -/

/-- Registry state: a dict from capability kind to a dict from target name
to the registered backend class (classes represented by an arbitrary
type `α`). -/
abbrev Dialects (α : Type) : Type := List (String × List (String × α))

/-- The initial registry: `{"pipeline": {}, "log_parser": {}}`. -/
def DIALECTS (α : Type) : Dialects α :=
  [("pipeline", []), ("log_parser", [])]

/-- Errors raised by the registry (Python `ValueError`s, distinguished by
their message contents). -/
inductive RegError : Type
  /-- `Only support {DIALECTS.keys()}, but got {cls_type}` -/
  | unsupportedKind (cls_type : String) (supported : List String)
  /-- `Target {target} already registered for {cls_type} model dialects` -/
  | duplicateTarget (target : String) (cls_type : String)
  /-- `Target {target} not registered for {cls_type} model dialects` -/
  | unknownTarget (target : String) (cls_type : String)
  deriving DecidableEq, Repr

/-- `register_model_dialect(target, cls_type)` applied (as a decorator) to
`dialect_cls`, acting on registry state `d`.  Returns the decorator's
result together with the registry state afterwards; an error leaves the
state unchanged.  The duplicate check tests membership of the literal
string `"target"`, exactly as the source does. -/
def register_model_dialect {α : Type} (target cls_type : String)
    (dialect_cls : α) (d : Dialects α) : Except RegError α × Dialects α :=
  match dlookup d cls_type with
  | none => (.error (.unsupportedKind cls_type (dkeys d)), d)
  | some kind_map =>
      if (dlookup kind_map "target").isSome then
        (.error (.duplicateTarget target cls_type), d)
      else
        (.ok dialect_cls, dinsert d cls_type (dinsert kind_map target dialect_cls))

/-- `get_all_dialects(cls_type)`: all registered dialects of one kind. -/
def get_all_dialects {α : Type} (d : Dialects α) (cls_type : String) :
    Except RegError (List (String × α)) :=
  match dlookup d cls_type with
  | none => .error (.unsupportedKind cls_type (dkeys d))
  | some kind_map => .ok kind_map

/-- `get_dialect_cls(cls_type, target)`: look one dialect class up. -/
def get_dialect_cls {α : Type} (d : Dialects α) (cls_type target : String) :
    Except RegError α :=
  match dlookup d cls_type with
  | none => .error (.unsupportedKind cls_type (dkeys d))
  | some kind_map =>
      match dlookup kind_map target with
      | none => .error (.unknownTarget target cls_type)
      | some c => .ok c

/-- Decidable equality for `Except`, used to evaluate the registry on
concrete inputs. -/
instance exceptDecEq {ε α : Type} [DecidableEq ε] [DecidableEq α] :
    DecidableEq (Except ε α) := fun x y =>
  match x, y with
  | .ok a, .ok b =>
      if h : a = b then .isTrue (by rw [h]) else .isFalse (by simp [h])
  | .error a, .error b =>
      if h : a = b then .isTrue (by rw [h]) else .isFalse (by simp [h])
  | .ok _, .error _ => .isFalse (by simp)
  | .error _, .ok _ => .isFalse (by simp)

/-! ### Sharding primitives

The sharding implementation is not among the provided sources (only its
example callers, e.g. `src/examples/bert/model.py`, are), so it is
modelled from the specification (§4.5, §8). -/

/-- Fatal errors of the sharding primitives (spec §4.5). -/
inductive ShardError : Type
  | shardSizeMismatch
  | groupNotConfigured
  deriving DecidableEq, Repr

/-- Modelled from the spec: splitting a parameter (its sharded dimension
represented as a list of entries) into `g` consecutive chunks of `m`
entries each — the local shards held by the `g` processes. -/
def chunkParam : Nat → Nat → List Int → List (List Int)
  | 0, _, _ => []
  | g + 1, m, l => l.take m :: chunkParam g m (l.drop m)

/-- Modelled from the spec: the shard primitive (source not under `src/`).
Sharding a parameter of size `N` along a dimension across `g` processes
requires `N % g == 0`; otherwise it fails with `ShardSizeMismatch` and
performs no silent padding.  On success process `i` holds the `i`-th
chunk of `N / g` consecutive entries. -/
def shardParam (param : List Int) (g : Nat) :
    Except ShardError (List (List Int)) :=
  if param.length % g = 0 then
    .ok (chunkParam g (param.length / g) param)
  else
    .error .shardSizeMismatch

/-! ### Pipeline partitioner

The pipeline partitioner is likewise not among the provided sources (only
the example caller invoking `cut_pipeline_stage` is), so it is modelled
from the specification (§4.6, §8). -/

/-- Fatal error of the pipeline partitioner (spec §4.6). -/
inductive PipelineError : Type
  | invalidCutOrder
  deriving DecidableEq, Repr

/-- Whether a list of cut positions is strictly increasing. -/
def strictIncr : List Nat → Bool
  | [] => true
  | [_] => true
  | a :: b :: rest => decide (a < b) && strictIncr (b :: rest)

/-- Split the node sequence at the given absolute positions, `pos` being
the topological position of the sequence's first element. -/
def splitFrom {α : Type} : List α → Nat → List Nat → List (List α)
  | nodes, _, [] => [nodes]
  | nodes, pos, c :: rest =>
      nodes.take (c - pos) :: splitFrom (nodes.drop (c - pos)) c rest

/-- Split a topological node sequence at the given (absolute, strictly
increasing) positions: each position starts a new stage. -/
def splitAtCuts {α : Type} (nodes : List α) (cuts : List Nat) :
    List (List α) :=
  splitFrom nodes 0 cuts

/-- Modelled from the spec: the pipeline partitioner (source not under
`src/`).  Given the traced graph's topological node sequence and an
ordered list of cut points (positions of the first node of each new
stage), partition the sequence into contiguous stages at those
boundaries; cut points must be strictly increasing in topological order
or the call fails with `InvalidCutOrder`. -/
def partitionPipeline {α : Type} (nodes : List α) (cuts : List Nat) :
    Except PipelineError (List (List α)) :=
  if strictIncr cuts then .ok (splitAtCuts nodes cuts)
  else .error .invalidCutOrder

/-! ### Pattern matcher

The pattern matcher is not among the provided sources (only
`src/tests/test_fusion.py` exercising it is), so it is modelled from the
specification (§4.3): walk the target graph's nodes in topological order;
at each candidate start node attempt a local check against the pattern;
on success record the matched group and advance past its last node
(non-overlapping, greedy, left-to-right).  Nodes are represented by their
operator identities in topological order, a pattern by the operator
sequence it traces to, and a matched group by the topological positions
of its nodes. -/

/-- Whether the pattern's operator sequence matches the graph nodes
starting at the head of `ops`. -/
def matchesHere : List String → List String → Bool
  | [], _ => true
  | _ :: _, [] => false
  | p :: ps, o :: os => p == o && matchesHere ps os

/-- Modelled from the spec: the matcher's scan.  `skip` counts nodes of
the last matched group still to be advanced past; `pos` is the
topological position of the head of `ops`. -/
def findAux (pat : List String) : List String → Nat → Nat → List (List Nat)
  | [], _, _ => []
  | _ :: rest, skip + 1, pos => findAux pat rest skip (pos + 1)
  | o :: rest, 0, pos =>
      if matchesHere pat (o :: rest) then
        List.range' pos pat.length
          :: findAux pat rest (pat.length - 1) (pos + 1)
      else
        findAux pat rest 0 (pos + 1)

/-- Modelled from the spec: `MatchResult` of matching `pat` against the
topological node sequence `ops` — the non-overlapping groups in
first-matched order.  The function is total: finding nothing returns the
empty list, never an error. -/
def findMatches (ops pat : List String) : List (List Nat) :=
  findAux pat ops 0 0

/-! ### Fusion compiler

The fusion compiler is not among the provided sources (only
`src/tests/test_fusion.py` exercising it is), so it is modelled from the
specification (§4.4): a matched group — a contiguous slice of the
topologically ordered graph, as the matcher produces — is extracted into
a single standalone region node whose inputs are the group's
external-facing inputs and whose output is the group's final output; the
rest of the graph's edges are rewired through the new node unchanged.
The graph is modelled as a straight-line program over integer values:
node `j` reads values at indices below `nIn + j` (inputs occupy indices
`0..nIn-1`, node `j` defines index `nIn + j`) and the model's output is
the last node's value.  Over exact integer arithmetic the spec's
"numerically equivalent within floating-point tolerance" sharpens to
equality. -/

/-- Operator of a graph node. -/
inductive Op : Type
  | const (n : Int)
  | add
  | mul
  | relu
  deriving DecidableEq, Repr

/-- Apply an operator to its argument values (missing arguments read 0). -/
def evalOp : Op → List Int → Int
  | .const n, _ => n
  | .add, args => args.getD 0 0 + args.getD 1 0
  | .mul, args => args.getD 0 0 * args.getD 1 0
  | .relu, args => max (args.getD 0 0) 0

/-- A graph node: an operator applied to earlier values. -/
structure Instr : Type where
  op : Op
  args : List Nat
  deriving DecidableEq, Repr

/-- Evaluate one node against the environment of earlier values. -/
def evalInstr (i : Instr) (env : List Int) : Int :=
  evalOp i.op (i.args.map (fun a => env.getD a 0))

/-- Modelled from the spec: execution of the traced computational graph
(the tracer and execution engine are not under `src/`) — evaluate the
nodes in topological order, each appending its value to the
environment. -/
def evalProg (p : List Instr) (env : List Int) : List Int :=
  match p with
  | [] => env
  | i :: rest => evalProg rest (env ++ [evalInstr i env])

/-- A node of a fused graph: either an original node or a `FusionRegion`
holding the extracted body. -/
inductive FInstr : Type
  | prim (i : Instr)
  | region (body : List Instr)
  deriving DecidableEq, Repr

/-- Evaluate a fused-graph node: a region runs its whole body and yields
the body's final output (the region's single output). -/
def evalFInstr (fi : FInstr) (env : List Int) : Int :=
  match fi with
  | .prim i => evalInstr i env
  | .region body => (evalProg body env).getLastD 0

/-- Execution of a fused graph. -/
def evalFProg (p : List FInstr) (env : List Int) : List Int :=
  match p with
  | [] => env
  | i :: rest => evalFProg rest (env ++ [evalFInstr i env])

/-- Rewire one edge around a fused group occupying value indices
`base .. base+k-1`: references below the group are unchanged, a
reference to the group's output goes to the region node's value at
`base`, and later references shift down by the `k - 1` removed
interior values. -/
def remapArg (base k a : Nat) : Nat :=
  if a < base then a
  else if a = base + k - 1 then base
  else a - (k - 1)

/-- Rewire all edges of one downstream node around the fused group. -/
def remapInstr (base k : Nat) (i : Instr) : Instr :=
  ⟨i.op, i.args.map (remapArg base k)⟩

/-- Modelled from the spec: the fusion compiler's graph rewrite (source
not under `src/`).  The matched group is the contiguous slice of `k`
nodes starting at node position `s` (`nIn` is the number of model
inputs); it is extracted into a single region node and the downstream
edges are rewired through it unchanged. -/
def fuse (p : List Instr) (nIn s k : Nat) : List FInstr :=
  (p.take s).map .prim
    ++ FInstr.region ((p.drop s).take k)
    :: ((p.drop (s + k)).map (fun i => FInstr.prim (remapInstr (nIn + s) k i)))

/-- The model's output: the value of the final node. -/
def progOutput (p : List Instr) (inputs : List Int) : Int :=
  (evalProg p inputs).getLastD 0

/-- The fused model's output: the value of its final node. -/
def fusedOutput (p : List FInstr) (inputs : List Int) : Int :=
  (evalFProg p inputs).getLastD 0

/-- Boundary condition of a matched group (spec §4.4: the region's
output is the group's final output): every node downstream of the group
references only values defined before the group, the group's final
output, or later values — never a group-interior value — and only values
already defined (`L` is the environment length when the node runs). -/
def suffixOK (base k : Nat) : List Instr → Nat → Bool
  | [], _ => true
  | i :: rest, L =>
      i.args.all (fun a =>
        (decide (a < base) || decide (a = base + k - 1) || decide (base + k ≤ a))
          && decide (a < L))
        && suffixOK base k rest (L + 1)

/-! ## Theorems

Auxiliary lemmas first, then one theorem per claim (with its
witness or counterexample where applicable), in claim order within
each component. -/

theorem dlookup_dinsert_self {α : Type} (l : List (String × α)) (k : String)
    (v : α) : dlookup (dinsert l k v) k = some v := by
  induction l with
  | nil => simp [dinsert, dlookup]
  | cons hd tl ih =>
      obtain ⟨k', v'⟩ := hd
      by_cases h : k' = k
      · simp [dinsert, h, dlookup]
      · simp [dinsert, h, dlookup, ih]

theorem dlookup_dinsert_ne {α : Type} (l : List (String × α)) (k k' : String)
    (v : α) (h : k' ≠ k) : dlookup (dinsert l k v) k' = dlookup l k' := by
  have h' : ¬ k = k' := fun hh => h hh.symm
  induction l with
  | nil => simp [dinsert, dlookup, h']
  | cons hd tl ih =>
      obtain ⟨k₀, v₀⟩ := hd
      by_cases h₀ : k₀ = k
      · subst h₀
        simp [dinsert, dlookup, h']
      · simp [dinsert, h₀, dlookup, ih]

theorem dkeys_dinsert_of_lookup {α : Type} (l : List (String × α))
    (k : String) (v : α) (h : (dlookup l k).isSome) :
    dkeys (dinsert l k v) = dkeys l := by
  induction l with
  | nil => simp [dlookup] at h
  | cons hd tl ih =>
      obtain ⟨k₀, v₀⟩ := hd
      by_cases h₀ : k₀ = k
      · simp [dinsert, h₀, dkeys]
      · simp [dlookup, h₀] at h
        simp [dinsert, h₀, dkeys] at ih ⊢
        exact ih h

theorem dlookup_none_of_not_mem_dkeys {α : Type} (l : List (String × α))
    (k : String) (h : k ∉ dkeys l) : dlookup l k = none := by
  induction l with
  | nil => rfl
  | cons hd tl ih =>
      obtain ⟨k₀, v₀⟩ := hd
      have h₁ : ¬ k₀ = k := by
        intro hh
        exact h (by simp [dkeys, hh])
      have h₂ : k ∉ dkeys tl := by
        intro hh
        exact h (by simp [dkeys] at hh ⊢; exact Or.inr hh)
      simp [dlookup, h₁, ih h₂]

/-! ### Claims about the dialect registry -/

/-- C1: the spec requires that registering the same target a second time
for the same kind fails with a `DuplicateTarget` error.  The code does
not do this: its duplicate check tests membership of the literal string
`"target"` rather than of the target being registered (the error message
itself interpolates the `target` variable, showing the check is a slip).
Registering target `"x"` twice for kind `"pipeline"` from the initial
registry succeeds both times and silently overwrites. -/
theorem duplicate_registration_not_rejected :
    (register_model_dialect "x" "pipeline" (1 : Nat) (DIALECTS Nat)).1 = .ok 1 ∧
    (register_model_dialect "x" "pipeline" (2 : Nat)
        (register_model_dialect "x" "pipeline" (1 : Nat) (DIALECTS Nat)).2).1 = .ok 2 ∧
    get_dialect_cls
        (register_model_dialect "x" "pipeline" (2 : Nat)
          (register_model_dialect "x" "pipeline" (1 : Nat) (DIALECTS Nat)).2).2
        "pipeline" "x" = .ok 2 := by
  refine ⟨rfl, rfl, rfl⟩

/-- C2 counterexample: the claim says a second registration for the same
`(kind, target)` pair always completes without raising.  It fails for the
target named `"target"`: after registering class `1` there, the literal
membership check fires and the second registration raises. -/
theorem second_registration_raises_for_literal_target :
    (register_model_dialect "target" "pipeline" (1 : Nat) (DIALECTS Nat)).1 = .ok 1 ∧
    (register_model_dialect "target" "pipeline" (2 : Nat)
        (register_model_dialect "target" "pipeline" (1 : Nat) (DIALECTS Nat)).2).1
      = .error (.duplicateTarget "target" "pipeline") := by
  refine ⟨rfl, rfl⟩

/-- C2 (amended): provided the kind is supported and the kind's mapping
does not contain the literal key `"target"` (in particular the target
being registered is not named `"target"`), registering `A` and then `B`
for the same `(kind, target)` pair completes without raising both times,
and a subsequent lookup returns `B`: the most recent registration wins. -/
theorem register_overwrite_wins {α : Type} (d : Dialects α)
    (kind target : String) (A B : α) (m : List (String × α))
    (hk : dlookup d kind = some m)
    (ht : dlookup m "target" = none)
    (hne : target ≠ "target") :
    (register_model_dialect target kind A d).1 = .ok A ∧
    (register_model_dialect target kind B
        (register_model_dialect target kind A d).2).1 = .ok B ∧
    get_dialect_cls
        (register_model_dialect target kind B
          (register_model_dialect target kind A d).2).2
        kind target = .ok B := by
  have hstep1 : register_model_dialect target kind A d
      = (.ok A, dinsert d kind (dinsert m target A)) := by
    simp [register_model_dialect, hk, ht]
  have hlk1 : dlookup (dinsert d kind (dinsert m target A)) kind
      = some (dinsert m target A) := dlookup_dinsert_self d kind _
  have hlt1 : dlookup (dinsert m target A) "target" = none := by
    rw [dlookup_dinsert_ne m target "target" A (fun h => hne h.symm)]
    exact ht
  have hstep2 : register_model_dialect target kind B
      (dinsert d kind (dinsert m target A))
      = (.ok B, dinsert (dinsert d kind (dinsert m target A)) kind
          (dinsert (dinsert m target A) target B)) := by
    simp [register_model_dialect, hlk1, hlt1]
  refine ⟨by rw [hstep1], by rw [hstep1, hstep2], ?_⟩
  rw [hstep1, hstep2]
  simp [get_dialect_cls, dlookup_dinsert_self]

/-- Witness for C2's amended theorem at a concrete input. -/
theorem register_overwrite_wins_witness :
    (register_model_dialect "x" "pipeline" (1 : Nat) (DIALECTS Nat)).1 = .ok 1 ∧
    (register_model_dialect "x" "pipeline" (2 : Nat)
        (register_model_dialect "x" "pipeline" (1 : Nat) (DIALECTS Nat)).2).1 = .ok 2 ∧
    get_dialect_cls
        (register_model_dialect "x" "pipeline" (2 : Nat)
          (register_model_dialect "x" "pipeline" (1 : Nat) (DIALECTS Nat)).2).2
        "pipeline" "x" = .ok 2 :=
  register_overwrite_wins (DIALECTS Nat) "pipeline" "x" 1 2 [] rfl rfl (by decide)

/-- C3: for every supported kind (one whose mapping `m` the registry
holds) and every target, `get_dialect_cls` raises an error — and that
error names the target and the kind — exactly when no backend is
registered under `(kind, target)`; when one is registered, the lookup
returns it without error. -/
theorem get_dialect_cls_spec {α : Type} (d : Dialects α)
    (kind target : String) (m : List (String × α))
    (hk : dlookup d kind = some m) :
    (dlookup m target = none →
        get_dialect_cls d kind target = .error (.unknownTarget target kind)) ∧
    (∀ c, dlookup m target = some c → get_dialect_cls d kind target = .ok c) ∧
    (∀ e, get_dialect_cls d kind target = .error e →
        dlookup m target = none ∧ e = .unknownTarget target kind) := by
  refine ⟨fun hn => by simp [get_dialect_cls, hk, hn],
          fun c hc => by simp [get_dialect_cls, hk, hc], fun e he => ?_⟩
  cases hm : dlookup m target with
  | none =>
      simp [get_dialect_cls, hk, hm] at he
      exact ⟨rfl, he.symm⟩
  | some c => simp [get_dialect_cls, hk, hm] at he

/-- Witness for C3 at a concrete registry. -/
theorem get_dialect_cls_spec_witness :
    (dlookup [("x", 7)] "y" = none →
        get_dialect_cls [("pipeline", [("x", 7)]), ("log_parser", [])]
          "pipeline" "y" = .error (.unknownTarget "y" "pipeline")) ∧
    (∀ c, dlookup [("x", 7)] "y" = some c →
        get_dialect_cls [("pipeline", [("x", 7)]), ("log_parser", [])]
          "pipeline" "y" = .ok c) ∧
    (∀ e, get_dialect_cls [("pipeline", [("x", 7)]), ("log_parser", [])]
          "pipeline" "y" = .error e →
        dlookup [("x", 7)] "y" = none ∧ e = .unknownTarget "y" "pipeline") :=
  get_dialect_cls_spec [("pipeline", [("x", 7)]), ("log_parser", [])]
    "pipeline" "y" [("x", 7)] rfl

/-- C4 counterexample: the claim says that registering a class for a
target with no prior conflicting entry succeeds and round-trips.  It fails
once some earlier registration has stored the literal key `"target"` under
the kind: registering the fresh target `"y"` (for which nothing is
registered, as the `UnknownTarget` lookup shows) then raises instead of
succeeding. -/
theorem register_roundtrip_counterexample :
    (register_model_dialect "target" "pipeline" (1 : Nat) (DIALECTS Nat)).1 = .ok 1 ∧
    get_dialect_cls
        (register_model_dialect "target" "pipeline" (1 : Nat) (DIALECTS Nat)).2
        "pipeline" "y" = .error (.unknownTarget "y" "pipeline") ∧
    (register_model_dialect "y" "pipeline" (2 : Nat)
        (register_model_dialect "target" "pipeline" (1 : Nat) (DIALECTS Nat)).2).1
      = .error (.duplicateTarget "y" "pipeline") := by
  refine ⟨rfl, rfl, rfl⟩

/-- C4 (amended): for every supported kind, target and class `C`, if the
target has no prior entry under the kind and, additionally, the literal
key `"target"` is not present in the kind's mapping (the code's duplicate
check inspects that literal string), then applying the decorator returned
by `register_model_dialect` to `C` returns `C` itself unchanged, and
afterwards `get_dialect_cls` returns exactly `C` and `get_all_dialects`
maps the target to `C`. -/
theorem register_roundtrip {α : Type} (d : Dialects α)
    (kind target : String) (C : α) (m : List (String × α))
    (hk : dlookup d kind = some m)
    (hnc : dlookup m target = none)
    (ht : dlookup m "target" = none) :
    (register_model_dialect target kind C d).1 = .ok C ∧
    get_dialect_cls (register_model_dialect target kind C d).2 kind target
      = .ok C ∧
    get_all_dialects (register_model_dialect target kind C d).2 kind
      = .ok (dinsert m target C) ∧
    dlookup (dinsert m target C) target = some C := by
  have hstep : register_model_dialect target kind C d
      = (.ok C, dinsert d kind (dinsert m target C)) := by
    simp [register_model_dialect, hk, ht]
  refine ⟨by rw [hstep], ?_, ?_, dlookup_dinsert_self m target C⟩
  · rw [hstep]
    simp [get_dialect_cls, dlookup_dinsert_self]
  · rw [hstep]
    simp [get_all_dialects, dlookup_dinsert_self]

/-- Witness for C4's amended theorem at a concrete input. -/
theorem register_roundtrip_witness :
    (register_model_dialect "x" "log_parser" (5 : Nat) (DIALECTS Nat)).1 = .ok 5 ∧
    get_dialect_cls (register_model_dialect "x" "log_parser" (5 : Nat) (DIALECTS Nat)).2
        "log_parser" "x" = .ok 5 ∧
    get_all_dialects (register_model_dialect "x" "log_parser" (5 : Nat) (DIALECTS Nat)).2
        "log_parser" = .ok (dinsert [] "x" 5) ∧
    dlookup (dinsert [] "x" 5) "x" = some 5 :=
  register_roundtrip (DIALECTS Nat) "log_parser" "x" 5 [] rfl rfl rfl

/-- C5: the registry supports exactly the two kinds `"pipeline"` and
`"log_parser"`: those are the initial keys, every registration (successful
or not) leaves the key set unchanged, and calling any of the three
functions with any other kind fails with an error listing the supported
kinds. -/
theorem registry_two_kinds {α : Type} (d : Dialects α)
    (kind target : String) (c : α)
    (hd : dkeys d = ["pipeline", "log_parser"])
    (h1 : kind ≠ "pipeline") (h2 : kind ≠ "log_parser") :
    dkeys (DIALECTS α) = ["pipeline", "log_parser"] ∧
    (∀ (t k : String) (c' : α),
        dkeys (register_model_dialect t k c' d).2 = ["pipeline", "log_parser"]) ∧
    register_model_dialect target kind c d
      = (.error (.unsupportedKind kind ["pipeline", "log_parser"]), d) ∧
    get_all_dialects d kind
      = .error (.unsupportedKind kind ["pipeline", "log_parser"]) ∧
    get_dialect_cls d kind target
      = .error (.unsupportedKind kind ["pipeline", "log_parser"]) := by
  have hnone : dlookup d kind = none := by
    refine dlookup_none_of_not_mem_dkeys d kind ?_
    rw [hd]
    simp [h1, h2]
  refine ⟨rfl, ?_, ?_, ?_, ?_⟩
  · intro t k c'
    cases hdk : dlookup d k with
    | none => simp [register_model_dialect, hdk, hd]
    | some m =>
        by_cases hdup : (dlookup m "target").isSome
        · simp [register_model_dialect, hdk, hdup, hd]
        · rw [register_model_dialect]
          rw [hdk]
          simp only [hdup, if_false, Bool.false_eq_true]
          rw [← hd]
          exact dkeys_dinsert_of_lookup d k _ (by rw [hdk]; rfl)
  · rw [register_model_dialect, hnone, hd]
  · rw [get_all_dialects, hnone, hd]
  · rw [get_dialect_cls, hnone, hd]

/-- Witness for C5 at the initial registry and the kind `"attention"`. -/
theorem registry_two_kinds_witness :
    dkeys (DIALECTS Nat) = ["pipeline", "log_parser"] ∧
    (∀ (t k : String) (c' : Nat),
        dkeys (register_model_dialect t k c' (DIALECTS Nat)).2
          = ["pipeline", "log_parser"]) ∧
    register_model_dialect "x" "attention" (1 : Nat) (DIALECTS Nat)
      = (.error (.unsupportedKind "attention" ["pipeline", "log_parser"]),
         DIALECTS Nat) ∧
    get_all_dialects (DIALECTS Nat) "attention"
      = .error (.unsupportedKind "attention" ["pipeline", "log_parser"]) ∧
    get_dialect_cls (DIALECTS Nat) "attention" "x"
      = .error (.unsupportedKind "attention" ["pipeline", "log_parser"]) :=
  registry_two_kinds (DIALECTS Nat) "attention" "x" 1 rfl
    (by decide) (by decide)

/-- C10: a successful registration for `(kind, target)` adds or replaces
only that one entry — every other target under the same kind and the
mappings of all other kinds are unchanged, and the outer key set is
unchanged — while a registration whose kind is unsupported errors with
the registry left exactly as it was. -/
theorem register_frame_effect {α : Type} (d : Dialects α)
    (kind target : String) (c : α) :
    (dlookup d kind = none →
        register_model_dialect target kind c d
          = (.error (.unsupportedKind kind (dkeys d)), d)) ∧
    (∀ m, dlookup d kind = some m →
        (register_model_dialect target kind c d).1 = .ok c →
        (register_model_dialect target kind c d).2
            = dinsert d kind (dinsert m target c) ∧
          dkeys (dinsert d kind (dinsert m target c)) = dkeys d ∧
          (∀ k', k' ≠ kind →
            dlookup (dinsert d kind (dinsert m target c)) k' = dlookup d k') ∧
          dlookup (dinsert d kind (dinsert m target c)) kind
            = some (dinsert m target c) ∧
          (∀ t', t' ≠ target →
            dlookup (dinsert m target c) t' = dlookup m t') ∧
          dlookup (dinsert m target c) target = some c) := by
  refine ⟨fun hn => by rw [register_model_dialect, hn], fun m hm hok => ?_⟩
  by_cases hdup : (dlookup m "target").isSome
  · rw [register_model_dialect, hm] at hok
    simp [hdup] at hok
  · have hstep : register_model_dialect target kind c d
        = (.ok c, dinsert d kind (dinsert m target c)) := by
      rw [register_model_dialect, hm]
      simp [hdup]
    refine ⟨by rw [hstep],
      dkeys_dinsert_of_lookup d kind _ (by rw [hm]; rfl),
      fun k' hk' => dlookup_dinsert_ne d kind k' _ hk',
      dlookup_dinsert_self d kind _,
      fun t' ht' => dlookup_dinsert_ne m target t' c ht',
      dlookup_dinsert_self m target c⟩

/-- Witness for C10 at concrete registries: both the unsupported-kind
branch and the successful-registration branch. -/
theorem register_frame_effect_witness :
    (register_model_dialect "x" "oops" (3 : Nat) (DIALECTS Nat)
        = (.error (.unsupportedKind "oops" (dkeys (DIALECTS Nat))), DIALECTS Nat)) ∧
    ((register_model_dialect "x" "pipeline" (3 : Nat)
        [("pipeline", [("w", 9)]), ("log_parser", [("m", 4)])]).2
      = dinsert [("pipeline", [("w", 9)]), ("log_parser", [("m", 4)])] "pipeline"
          (dinsert [("w", 9)] "x" 3) ∧
      dlookup (dinsert [("pipeline", [("w", 9)]), ("log_parser", [("m", 4)])] "pipeline"
          (dinsert [("w", 9)] "x" 3)) "log_parser" = dlookup [("pipeline", [("w", 9)]), ("log_parser", [("m", 4)])] "log_parser" ∧
      dlookup (dinsert [("w", 9)] "x" 3) "w" = dlookup [("w", 9)] "w" ∧
      dlookup (dinsert [("w", 9)] "x" 3) "x" = some 3) :=
  ⟨(register_frame_effect (DIALECTS Nat) "oops" "x" 3).1 rfl,
   ((register_frame_effect [("pipeline", [("w", 9)]), ("log_parser", [("m", 4)])]
        "pipeline" "x" 3).2 [("w", 9)] rfl rfl).elim
     (fun a b => ⟨a, b.2.1 "log_parser" (by decide), b.2.2.2.1 "w" (by decide),
        b.2.2.2.2⟩)⟩

theorem chunkParam_length (g m : Nat) (l : List Int) :
    (chunkParam g m l).length = g := by
  induction g generalizing l with
  | zero => rfl
  | succ g ih => simp [chunkParam, ih]

theorem chunkParam_shard_length (g m : Nat) (l : List Int)
    (hl : l.length = g * m) :
    ∀ sh ∈ chunkParam g m l, sh.length = m := by
  induction g generalizing l with
  | zero => intro sh hsh; simp [chunkParam] at hsh
  | succ g ih =>
      intro sh hsh
      simp only [chunkParam, List.mem_cons] at hsh
      rcases hsh with h | h
      · subst h
        have : m ≤ l.length := by
          rw [hl, Nat.succ_mul]
          exact Nat.le_add_left m (g * m)
        simp [List.length_take, Nat.min_eq_left this]
      · refine ih (l.drop m) ?_ sh h
        rw [List.length_drop, hl, Nat.succ_mul, Nat.add_sub_cancel]

theorem chunkParam_flatten (g m : Nat) (l : List Int)
    (hl : l.length = g * m) :
    (chunkParam g m l).flatten = l := by
  induction g generalizing l with
  | zero =>
      have : l = [] := List.length_eq_zero.mp (by rw [hl, Nat.zero_mul])
      simp [chunkParam, this]
  | succ g ih =>
      have hdrop : (l.drop m).length = g * m := by
        rw [List.length_drop, hl, Nat.succ_mul, Nat.add_sub_cancel]
      simp [chunkParam, ih (l.drop m) hdrop]

/-- C7: sharding a parameter of size `N` across a process group of size
`g ≥ 1` succeeds exactly when `g` divides `N`, producing one local shard
of size `N / g` per process whose gathered concatenation is exactly the
original parameter (no silent padding); when `N % g ≠ 0` it fails with
`ShardSizeMismatch`. -/
theorem shard_spec (param : List Int) (g : Nat) (hg : 1 ≤ g) :
    (param.length % g = 0 →
       shardParam param g = .ok (chunkParam g (param.length / g) param) ∧
       (chunkParam g (param.length / g) param).length = g ∧
       (∀ sh ∈ chunkParam g (param.length / g) param,
          sh.length = param.length / g) ∧
       (chunkParam g (param.length / g) param).flatten = param) ∧
    (param.length % g ≠ 0 →
       shardParam param g = .error .shardSizeMismatch) := by
  have _ := hg
  constructor
  · intro hmod
    have hdvd : g ∣ param.length := Nat.dvd_of_mod_eq_zero hmod
    have hlen : param.length = g * (param.length / g) :=
      (Nat.mul_div_cancel' hdvd).symm
    exact ⟨by simp [shardParam, hmod], chunkParam_length g _ param,
      chunkParam_shard_length g _ param hlen, chunkParam_flatten g _ param hlen⟩
  · intro hmod
    simp [shardParam, hmod]

/-- Witness for C7: a parameter of size 4 across 2 processes, and one of
size 5 across 2 processes. -/
theorem shard_spec_witness :
    (shardParam [10, 20, 30, 40] 2 = .ok [[10, 20], [30, 40]] ∧
     shardParam [10, 20, 30, 40, 50] 2 = .error .shardSizeMismatch) :=
  ⟨by have h := (shard_spec [10, 20, 30, 40] 2 (by decide)).1 (by decide)
      rw [h.1]; rfl,
   (shard_spec [10, 20, 30, 40, 50] 2 (by decide)).2 (by decide)⟩

theorem splitFrom_length {α : Type} (nodes : List α) (pos : Nat)
    (cuts : List Nat) :
    (splitFrom nodes pos cuts).length = cuts.length + 1 := by
  induction cuts generalizing nodes pos with
  | nil => rfl
  | cons c rest ih => simp [splitFrom, ih]

theorem splitFrom_flatten {α : Type} (nodes : List α) (pos : Nat)
    (cuts : List Nat) :
    (splitFrom nodes pos cuts).flatten = nodes := by
  induction cuts generalizing nodes pos with
  | nil => simp [splitFrom]
  | cons c rest ih =>
      simp [splitFrom, ih, List.take_append_drop]

/-- C8: when the cut points are at strictly increasing topological
positions, the partitioner splits the topological node sequence into
exactly `cuts.length + 1` contiguous stages whose concatenation is the
original sequence (no node duplicated or omitted); when the cut points
are not strictly increasing, it fails with `InvalidCutOrder`. -/
theorem pipeline_partition_spec {α : Type} (nodes : List α)
    (cuts : List Nat) :
    (strictIncr cuts = true →
       partitionPipeline nodes cuts = .ok (splitAtCuts nodes cuts) ∧
       (splitAtCuts nodes cuts).length = cuts.length + 1 ∧
       (splitAtCuts nodes cuts).flatten = nodes) ∧
    (strictIncr cuts = false →
       partitionPipeline nodes cuts = .error .invalidCutOrder) := by
  constructor
  · intro h
    exact ⟨by simp [partitionPipeline, h], splitFrom_length nodes 0 cuts,
      splitFrom_flatten nodes 0 cuts⟩
  · intro h
    simp [partitionPipeline, h]

/-- Witness for C8: five nodes cut at positions 2 and 4, and the same
nodes with the cuts out of order. -/
theorem pipeline_partition_spec_witness :
    (partitionPipeline [0, 1, 2, 3, 4] [2, 4]
        = .ok [[0, 1], [2, 3], [4]] ∧
     partitionPipeline [0, 1, 2, 3, 4] [4, 2]
        = .error .invalidCutOrder) :=
  ⟨by have h := (pipeline_partition_spec [0, 1, 2, 3, 4] [2, 4]).1 rfl
      rw [h.1]; rfl,
   (pipeline_partition_spec [0, 1, 2, 3, 4] [4, 2]).2 rfl⟩

theorem findAux_lb (pat : List String) (ops : List String) :
    ∀ skip pos, ∀ g ∈ findAux pat ops skip pos, ∀ a ∈ g, pos + skip ≤ a := by
  induction ops with
  | nil => intro skip pos g hg; simp [findAux] at hg
  | cons o rest ih =>
      intro skip pos g hg a ha
      match skip with
      | skip + 1 =>
          have := ih skip (pos + 1) g hg a ha
          omega
      | 0 =>
          rw [findAux] at hg
          by_cases hm : matchesHere pat (o :: rest)
          · rw [if_pos hm] at hg
            rcases List.mem_cons.mp hg with h | h
            · subst h
              have := List.mem_range'_1.mp ha
              omega
            · have := ih (pat.length - 1) (pos + 1) g h a ha
              omega
          · rw [if_neg hm] at hg
            have := ih 0 (pos + 1) g hg a ha
            omega

theorem findAux_pairwise (pat ops : List String) :
    ∀ skip pos, (findAux pat ops skip pos).Pairwise
      (fun g₁ g₂ => ∀ a ∈ g₁, ∀ b ∈ g₂, a < b) := by
  induction ops with
  | nil => intro skip pos; simp [findAux]
  | cons o rest ih =>
      intro skip pos
      match skip with
      | skip + 1 => exact ih skip (pos + 1)
      | 0 =>
          rw [findAux]
          by_cases hm : matchesHere pat (o :: rest)
          · rw [if_pos hm]
            refine List.Pairwise.cons ?_ (ih (pat.length - 1) (pos + 1))
            intro g hg a ha b hb
            have h1 := List.mem_range'_1.mp ha
            have h2 := findAux_lb pat rest (pat.length - 1) (pos + 1) g hg b hb
            omega
          · rw [if_neg hm]
            exact ih 0 (pos + 1)

theorem findAux_empty (pat ops : List String)
    (h : ∀ i, matchesHere pat (ops.drop i) = false) :
    ∀ skip pos, findAux pat ops skip pos = [] := by
  induction ops with
  | nil => intro skip pos; match skip with | 0 => rfl | _ + 1 => rfl
  | cons o rest ih =>
      intro skip pos
      have hrest : ∀ i, matchesHere pat (rest.drop i) = false :=
        fun i => h (i + 1)
      match skip with
      | skip + 1 => exact ih hrest skip (pos + 1)
      | 0 =>
          rw [findAux]
          have h0 : matchesHere pat (o :: rest) = false := h 0
          rw [if_neg (by simp [h0])]
          exact ih hrest 0 (pos + 1)

/-- C9: pattern matching is deterministic — repeated calls on the same
unmodified graph return the same `MatchResult` (the matcher is a pure
function of the topological node sequence alone), the recorded groups are
non-overlapping and in increasing topological (first-matched) order, and
when no occurrence exists the matcher returns the empty result; its total
type shows it never raises. -/
theorem pattern_match_deterministic (ops pat : List String) :
    findMatches ops pat = findMatches ops pat ∧
    (findMatches ops pat).Pairwise
      (fun g₁ g₂ => ∀ a ∈ g₁, ∀ b ∈ g₂, a < b) ∧
    ((∀ i, matchesHere pat (ops.drop i) = false) →
        findMatches ops pat = []) :=
  ⟨rfl, findAux_pairwise pat ops 0 0,
   fun h => findAux_empty pat ops h 0 0⟩

/-- Witness for C9: a pattern with no occurrence yields the empty result
(and the concrete `MatchResult` equalities evaluate). -/
theorem pattern_match_deterministic_witness :
    findMatches ["add", "gelu"] ["mul"] = [] :=
  (pattern_match_deterministic ["add", "gelu"] ["mul"]).2.2 (by
    intro i
    match i with
    | 0 => rfl
    | 1 => rfl
    | i + 2 => simp [List.drop_succ_cons, matchesHere])

theorem evalProg_append (p q : List Instr) (env : List Int) :
    evalProg (p ++ q) env = evalProg q (evalProg p env) := by
  induction p generalizing env with
  | nil => rfl
  | cons i rest ih => simp [evalProg, ih]

theorem evalProg_length (p : List Instr) (env : List Int) :
    (evalProg p env).length = env.length + p.length := by
  induction p generalizing env with
  | nil => rfl
  | cons i rest ih => simp [evalProg, ih]; omega

theorem evalProg_getD_mono (p : List Instr) (env : List Int) (a : Nat)
    (h : a < env.length) : (evalProg p env).getD a 0 = env.getD a 0 := by
  induction p generalizing env with
  | nil => rfl
  | cons i rest ih =>
      rw [evalProg, ih (env ++ [evalInstr i env]) (by simp; omega)]
      exact List.getD_append env [evalInstr i env] 0 a h

theorem evalFProg_map_prim (q : List Instr) (env : List Int) :
    evalFProg (q.map .prim) env = evalProg q env := by
  induction q generalizing env with
  | nil => rfl
  | cons i rest ih => simp [evalFProg, evalProg, evalFInstr, ih]

theorem evalFProg_append (p q : List FInstr) (env : List Int) :
    evalFProg (p ++ q) env = evalFProg q (evalFProg p env) := by
  induction p generalizing env with
  | nil => rfl
  | cons i rest ih => simp [evalFProg, ih]

theorem getLastD_eq_getD (l : List Int) (d : Int) (h : l ≠ []) :
    l.getLastD d = l.getD (l.length - 1) 0 := by
  induction l generalizing d with
  | nil => simp at h
  | cons a t ih =>
      cases t with
      | nil => rfl
      | cons b t' =>
          rw [List.getLastD_cons, ih a (by simp)]
          simp only [List.length_cons, Nat.add_sub_cancel, List.getD_cons_succ]

theorem remapArg_lt (base k a Lo Lf : Nat) (hk : 1 ≤ k) (hbk : base + k ≤ Lo)
    (hlen : Lf + (k - 1) = Lo)
    (hv : a < base ∨ a = base + k - 1 ∨ base + k ≤ a) (ha : a < Lo) :
    remapArg base k a < Lf := by
  unfold remapArg
  split_ifs <;> omega

theorem suffix_sim (base k : Nat) (hk : 1 ≤ k) (suffix : List Instr) :
    ∀ (eo ef : List Int),
      suffixOK base k suffix eo.length = true →
      base + k ≤ eo.length →
      ef.length + (k - 1) = eo.length →
      (∀ a, (a < base ∨ a = base + k - 1 ∨ base + k ≤ a) → a < eo.length →
          ef.getD (remapArg base k a) 0 = eo.getD a 0) →
      base + k ≤ (evalProg suffix eo).length ∧
      (evalFProg (suffix.map (fun j => FInstr.prim (remapInstr base k j))) ef).length
          + (k - 1) = (evalProg suffix eo).length ∧
      (∀ a, (a < base ∨ a = base + k - 1 ∨ base + k ≤ a) →
          a < (evalProg suffix eo).length →
          (evalFProg (suffix.map (fun j => FInstr.prim (remapInstr base k j))) ef).getD
              (remapArg base k a) 0
            = (evalProg suffix eo).getD a 0) := by
  induction suffix with
  | nil =>
      intro eo ef _ hbk hlen hpt
      exact ⟨hbk, hlen, hpt⟩
  | cons i rest ih =>
      intro eo ef hok hbk hlen hpt
      rw [suffixOK, Bool.and_eq_true, List.all_eq_true] at hok
      obtain ⟨hargs, hrest⟩ := hok
      have hval : evalInstr (remapInstr base k i) ef = evalInstr i eo := by
        unfold evalInstr remapInstr
        simp only
        congr 1
        rw [List.map_map]
        refine List.map_congr_left ?_
        intro a ha
        have h := hargs a ha
        simp only [Bool.and_eq_true, Bool.or_eq_true, decide_eq_true_eq] at h
        exact hpt a (by tauto) h.2
      have hbk2 : base + k ≤ (eo ++ [evalInstr i eo]).length := by
        simp
        omega
      have hlen2 : (ef ++ [evalInstr i eo]).length + (k - 1)
          = (eo ++ [evalInstr i eo]).length := by
        simp
        omega
      have hpt2 : ∀ a, (a < base ∨ a = base + k - 1 ∨ base + k ≤ a) →
          a < (eo ++ [evalInstr i eo]).length →
          (ef ++ [evalInstr i eo]).getD (remapArg base k a) 0
            = (eo ++ [evalInstr i eo]).getD a 0 := by
        intro a hv ha
        simp only [List.length_append, List.length_cons, List.length_nil] at ha
        by_cases hcase : a < eo.length
        · have hr := remapArg_lt base k a eo.length ef.length hk hbk hlen hv hcase
          rw [List.getD_append ef [evalInstr i eo] 0 _ hr,
              List.getD_append eo [evalInstr i eo] 0 a hcase]
          exact hpt a hv hcase
        · have ha' : a = eo.length := by omega
          have hr : remapArg base k a = ef.length := by
            unfold remapArg
            split_ifs <;> omega
          rw [hr, ha']
          rw [List.getD_append_right ef [evalInstr i eo] 0 ef.length (le_refl _),
              List.getD_append_right eo [evalInstr i eo] 0 eo.length (le_refl _)]
          simp
      have hrest' : suffixOK base k rest (eo ++ [evalInstr i eo]).length = true := by
        simp only [List.length_append, List.length_cons, List.length_nil]
        exact hrest
      have hmain := ih (eo ++ [evalInstr i eo]) (ef ++ [evalInstr i eo])
        hrest' hbk2 hlen2 hpt2
      have hfoldF : evalFProg ((i :: rest).map (fun j => FInstr.prim (remapInstr base k j))) ef
          = evalFProg (rest.map (fun j => FInstr.prim (remapInstr base k j)))
              (ef ++ [evalInstr i eo]) := by
        simp [evalFProg, evalFInstr, hval]
      have hfoldO : evalProg (i :: rest) eo = evalProg rest (eo ++ [evalInstr i eo]) := rfl
      rw [hfoldF, hfoldO]
      exact hmain

theorem remapArg_last (base k Lo Lf D : Nat) (hk : 1 ≤ k)
    (h1 : Lo = base + k + D) (h2 : Lf + (k - 1) = Lo) :
    remapArg base k (Lo - 1) = Lf - 1 := by
  unfold remapArg
  split_ifs <;> omega

/-- C6: for every model (straight-line graph `p` with `inputs.length`
model inputs), every matched subgraph (the contiguous group of `k ≥ 1`
nodes at positions `s .. s+k-1`, its interior not referenced downstream,
per the `FusionRegion` boundary invariant), and every input vector,
executing the model after `fuse` has replaced the group with a fused
region produces output exactly equal to executing the un-fused original
model — in particular within any floating-point tolerance. -/
theorem fuse_preserves_output (p : List Instr) (inputs : List Int) (s k : Nat)
    (hk : 1 ≤ k) (hsk : s + k ≤ p.length)
    (hwf : suffixOK (inputs.length + s) k (p.drop (s + k))
        (inputs.length + s + k) = true) :
    fusedOutput (fuse p inputs.length s k) inputs = progOutput p inputs := by
  have hsfx : (p.drop s).drop k = p.drop (s + k) := by
    rw [List.drop_drop]
  have hdecomp : p = p.take s ++ ((p.drop s).take k ++ p.drop (s + k)) := by
    rw [← hsfx, List.take_append_drop, List.take_append_drop]
  have hpre : (p.take s).length = s := by
    simp
    omega
  have he0 : (evalProg (p.take s) inputs).length = inputs.length + s := by
    rw [evalProg_length, hpre]
  have hbody : ((p.drop s).take k).length = k := by
    simp
    omega
  have heB : (evalProg ((p.drop s).take k) (evalProg (p.take s) inputs)).length
      = inputs.length + s + k := by
    rw [evalProg_length, he0, hbody]
  have hBne : evalProg ((p.drop s).take k) (evalProg (p.take s) inputs) ≠ [] := by
    intro h
    have h0 : (evalProg ((p.drop s).take k) (evalProg (p.take s) inputs)).length
        = 0 := by
      rw [h]
      rfl
    omega
  -- original program: prefix, then body, then suffix
  have horig : evalProg p inputs
      = evalProg (p.drop (s + k))
          (evalProg ((p.drop s).take k) (evalProg (p.take s) inputs)) := by
    conv_lhs => rw [hdecomp]
    rw [evalProg_append, evalProg_append]
  -- fused program: prefix, then region node, then remapped suffix
  have hfused : evalFProg (fuse p inputs.length s k) inputs
      = evalFProg ((p.drop (s + k)).map
            (fun j => FInstr.prim (remapInstr (inputs.length + s) k j)))
          (evalProg (p.take s) inputs
            ++ [(evalProg ((p.drop s).take k)
                  (evalProg (p.take s) inputs)).getLastD 0]) := by
    rw [fuse, evalFProg_append, evalFProg_map_prim]
    rfl
  have hptInit : ∀ a,
      (a < inputs.length + s ∨ a = inputs.length + s + k - 1 ∨
        inputs.length + s + k ≤ a) →
      a < (evalProg ((p.drop s).take k) (evalProg (p.take s) inputs)).length →
      (evalProg (p.take s) inputs
          ++ [(evalProg ((p.drop s).take k)
                (evalProg (p.take s) inputs)).getLastD 0]).getD
          (remapArg (inputs.length + s) k a) 0
        = (evalProg ((p.drop s).take k)
            (evalProg (p.take s) inputs)).getD a 0 := by
    intro a hv ha
    rw [heB] at ha
    rcases hv with h1 | h2 | h3
    · have hra : remapArg (inputs.length + s) k a = a := by
        unfold remapArg
        split_ifs <;> omega
      rw [hra, List.getD_append _ _ 0 a (by omega)]
      exact (evalProg_getD_mono _ _ a (by omega)).symm
    · have hra : remapArg (inputs.length + s) k a = inputs.length + s := by
        unfold remapArg
        split_ifs <;> omega
      rw [hra, List.getD_append_right _ _ 0 _ (by omega), he0, Nat.sub_self]
      rw [getLastD_eq_getD _ 0 hBne]
      have hidx : a
          = (evalProg ((p.drop s).take k) (evalProg (p.take s) inputs)).length
              - 1 := by
        omega
      rw [hidx]
      rfl
    · omega
  have hsim := suffix_sim (inputs.length + s) k hk (p.drop (s + k))
    (evalProg ((p.drop s).take k) (evalProg (p.take s) inputs))
    (evalProg (p.take s) inputs
      ++ [(evalProg ((p.drop s).take k)
            (evalProg (p.take s) inputs)).getLastD 0])
    (by rw [heB]; exact hwf)
    (by omega)
    (by simp [he0]; omega)
    hptInit
  obtain ⟨hA, hB, hC⟩ := hsim
  have hEOlen : (evalProg (p.drop (s + k))
      (evalProg ((p.drop s).take k) (evalProg (p.take s) inputs))).length
      = inputs.length + s + k + (p.drop (s + k)).length := by
    rw [evalProg_length, heB]
  have hEOne : evalProg (p.drop (s + k))
      (evalProg ((p.drop s).take k) (evalProg (p.take s) inputs)) ≠ [] := by
    intro h
    have h0 : (evalProg (p.drop (s + k))
        (evalProg ((p.drop s).take k) (evalProg (p.take s) inputs))).length
        = 0 := by
      rw [h]
      rfl
    omega
  have hEFne : evalFProg ((p.drop (s + k)).map
        (fun j => FInstr.prim (remapInstr (inputs.length + s) k j)))
      (evalProg (p.take s) inputs
        ++ [(evalProg ((p.drop s).take k)
              (evalProg (p.take s) inputs)).getLastD 0]) ≠ [] := by
    intro h
    have h0 : (evalFProg ((p.drop (s + k)).map
          (fun j => FInstr.prim (remapInstr (inputs.length + s) k j)))
        (evalProg (p.take s) inputs
          ++ [(evalProg ((p.drop s).take k)
                (evalProg (p.take s) inputs)).getLastD 0])).length = 0 := by
      rw [h]
      rfl
    omega
  have hvalid : ((evalProg (p.drop (s + k))
        (evalProg ((p.drop s).take k) (evalProg (p.take s) inputs))).length - 1
          < inputs.length + s ∨
      (evalProg (p.drop (s + k))
        (evalProg ((p.drop s).take k) (evalProg (p.take s) inputs))).length - 1
          = inputs.length + s + k - 1 ∨
      inputs.length + s + k ≤ (evalProg (p.drop (s + k))
        (evalProg ((p.drop s).take k) (evalProg (p.take s) inputs))).length
          - 1) := by
    omega
  have hfinal := hC _ hvalid (by omega)
  have hra := remapArg_last (inputs.length + s) k
    (evalProg (p.drop (s + k))
      (evalProg ((p.drop s).take k) (evalProg (p.take s) inputs))).length
    (evalFProg ((p.drop (s + k)).map
        (fun j => FInstr.prim (remapInstr (inputs.length + s) k j)))
      (evalProg (p.take s) inputs
        ++ [(evalProg ((p.drop s).take k)
              (evalProg (p.take s) inputs)).getLastD 0])).length
    (p.drop (s + k)).length hk hEOlen hB
  rw [hra] at hfinal
  rw [fusedOutput, hfused, progOutput, horig,
      getLastD_eq_getD (evalFProg ((p.drop (s + k)).map
          (fun j => FInstr.prim (remapInstr (inputs.length + s) k j)))
        (evalProg (p.take s) inputs
          ++ [(evalProg ((p.drop s).take k)
                (evalProg (p.take s) inputs)).getLastD 0])) 0 hEFne,
      getLastD_eq_getD (evalProg (p.drop (s + k))
        (evalProg ((p.drop s).take k) (evalProg (p.take s) inputs))) 0 hEOne]
  exact hfinal

/-- Witness for C6: a three-node model (self-add, relu, multiply by the
first input) with the first two nodes fused, on input `[3]`. -/
theorem fuse_preserves_output_witness :
    fusedOutput
        (fuse [⟨.add, [0, 0]⟩, ⟨.relu, [1]⟩, ⟨.mul, [2, 0]⟩] 1 0 2) [3]
      = progOutput [⟨.add, [0, 0]⟩, ⟨.relu, [1]⟩, ⟨.mul, [2, 0]⟩] [3] :=
  fuse_preserves_output [⟨.add, [0, 0]⟩, ⟨.relu, [1]⟩, ⟨.mul, [2, 0]⟩] [3]
    0 2 (by decide) (by decide) (by decide)

end Slapo
